import Mathlib

/-!
Verification of the actor lifecycle manager (`src/manager.rs` of xtra).

The manager owns an actor and a dispatch context.  `ActorManager::start`
builds the mailbox, the liveness counter (an `Arc<()>`), a weak self-address
and the context, returning an `Address` and the manager.  `ActorManager::manage`
invokes the `started` hook, re-checks the running flag, then runs a suspending
main loop over mailbox entries followed by a non-suspending drain loop; the
`Drop` impl invokes the `stopped` hook when the manager value is destroyed.

The dispatch context (`Context`) is external to the sources at hand, so its
behaviour (`started`, `check_running`, `handle_message`) is kept parametric:
every theorem below holds for an arbitrary context/actor state type `σ` and an
arbitrary implementation of those operations, which is exactly the contract
the manager relies on.
-/

namespace Xtra

/-- The mailbox entry taxonomy, from `ManagerMessage` in `manager.rs`.
`M` is the type of boxed message envelopes (treated abstractly here). -/
inductive ManagerMessage (M : Type) where
  | lastAddress
  | message (env : M)
  | lateNotification (env : M)
deriving DecidableEq

/-- The continuation verdict returned by `Context::handle_message`,
from `ContinueManageLoop` in `manager.rs`. -/
inductive ContinueManageLoop where
  | yes
  | exitImmediately
  | processNotifications
deriving DecidableEq

/-- Observable lifecycle events of one manager run: the `started` hook,
one dispatch per handled mailbox entry, and the `stopped` hook. -/
inductive Event (M : Type) where
  | startedHook
  | dispatched (msg : ManagerMessage M)
  | stoppedHook
deriving DecidableEq

/-- A mailbox receive operation performed by the manager.
`awaitNext` is the suspending `receiver.next().await` of the main loop;
`pollNext` is the non-suspending `receiver.try_next()` of the drain loop. -/
inductive MailboxOp where
  | awaitNext
  | pollNext
deriving DecidableEq

/-- Whether a mailbox receive operation can suspend the task:
`next().await` suspends until an entry is available, `try_next()` never does. -/
def MailboxOp.suspending : MailboxOp → Bool
  | .awaitNext => true
  | .pollNext => false

/-- The contract of the actor together with its dispatch context, over an
abstract combined state `σ`: the `started` hook, `Context::check_running`
(which may mutate the state and returns the running flag), and
`Context::handle_message` (which mutates the state and returns a verdict). -/
structure ActorModel (σ M : Type) where
  started : σ → σ
  check_running : σ → σ × Bool
  handle_message : σ → ManagerMessage M → σ × ContinueManageLoop

/-- Result of one of the two receive loops: the final state, the lifecycle
events emitted, and the mailbox operations performed. -/
structure LoopResult (σ M : Type) where
  state : σ
  events : List (Event M)
  ops : List MailboxOp
deriving DecidableEq

/-- How the main loop ended: an `ExitImmediately` verdict returned from
`manage`; a `ProcessNotifications` verdict broke into the drain phase with
the still-queued entries; or the queue was exhausted and the loop is parked
on `next().await` (resolved by whether the channel disconnects). -/
inductive MainExit (M : Type) where
  | exitedImmediately
  | brokeToDrain (remaining : List (ManagerMessage M))
  | exhausted
deriving DecidableEq

/-- The main loop of `manage` (lines 90-96 of `manager.rs`): await each next
entry, handle it, and interpret the verdict: `Yes` keeps looping,
`ProcessNotifications` breaks to the drain phase, `ExitImmediately` returns. -/
def mainLoop (am : ActorModel σ M) : σ → List (ManagerMessage M) → LoopResult σ M × MainExit M
  | s, [] => (⟨s, [], [MailboxOp.awaitNext]⟩, MainExit.exhausted)
  | s, m :: rest =>
    match am.handle_message s m with
    | (t, ContinueManageLoop.yes) =>
      let r := mainLoop am t rest
      (⟨r.1.state, Event.dispatched m :: r.1.events, MailboxOp.awaitNext :: r.1.ops⟩, r.2)
    | (t, ContinueManageLoop.processNotifications) =>
      (⟨t, [Event.dispatched m], [MailboxOp.awaitNext]⟩, MainExit.brokeToDrain rest)
    | (t, ContinueManageLoop.exitImmediately) =>
      (⟨t, [Event.dispatched m], [MailboxOp.awaitNext]⟩, MainExit.exitedImmediately)

/-- The drain loop of `manage` (lines 104-109 of `manager.rs`): poll entries
without suspending via `try_next`; handle each; only an `ExitImmediately`
verdict breaks early, discarding the remaining entries; an empty poll ends
the loop. -/
def drainLoop (am : ActorModel σ M) : σ → List (ManagerMessage M) → LoopResult σ M
  | s, [] => ⟨s, [], [MailboxOp.pollNext]⟩
  | s, m :: rest =>
    match am.handle_message s m with
    | (t, ContinueManageLoop.exitImmediately) =>
      ⟨t, [Event.dispatched m], [MailboxOp.pollNext]⟩
    | (t, _) =>
      let r := drainLoop am t rest
      ⟨r.state, Event.dispatched m :: r.events, MailboxOp.pollNext :: r.ops⟩

/-- Whether a terminating run of `manage` returned, or is parked forever on
the suspending `next().await` of the main loop. -/
inductive RunOutcome where
  | terminated
  | parked
deriving DecidableEq

/-- The observable result of driving `manage`: the lifecycle events emitted
before the manager value is dropped, the mailbox operations of the main loop
and of the drain loop, and whether the run terminated or parked. -/
structure RunResult (M : Type) where
  live : List (Event M)
  mainOps : List MailboxOp
  drainOps : List MailboxOp
  outcome : RunOutcome
deriving DecidableEq

/-- The events produced by `impl Drop for ActorManager` (lines 36-40 of
`manager.rs`): one unconditional invocation of the `stopped` hook. -/
def dropEvents (M : Type) : List (Event M) := [Event.stoppedHook]

/-- The two receive loops of `manage`, from the post-startup state: run the
main loop over the queued entries; on `ExitImmediately` return at once, on
`ProcessNotifications` fall into the drain loop over the remaining entries,
and on exhaustion either fall into an empty drain (channel disconnected,
`next()` yielded `None`) or park on the suspending await. -/
def runLoops (am : ActorModel σ M) (s : σ) (queue : List (ManagerMessage M))
    (disconnects : Bool) : RunResult M :=
  let r := mainLoop am s queue
  match r.2 with
  | MainExit.exitedImmediately => ⟨r.1.events, r.1.ops, [], RunOutcome.terminated⟩
  | MainExit.brokeToDrain rest =>
    let d := drainLoop am r.1.state rest
    ⟨r.1.events ++ d.events, r.1.ops, d.ops, RunOutcome.terminated⟩
  | MainExit.exhausted =>
    if disconnects then
      let d := drainLoop am r.1.state []
      ⟨r.1.events ++ d.events, r.1.ops, d.ops, RunOutcome.terminated⟩
    else
      ⟨r.1.events, r.1.ops, [], RunOutcome.parked⟩

/-- `ActorManager::manage` (lines 80-110 of `manager.rs`): invoke the
`started` hook, re-check the running flag (returning early when it was
cleared during startup), then run the main loop and the drain loop.
`queue` is the global arrival order of all entries ever enqueued;
`disconnects` says whether every producer is eventually dropped. -/
def manage (am : ActorModel σ M) (s : σ) (queue : List (ManagerMessage M))
    (disconnects : Bool) : RunResult M :=
  let s1 := am.started s
  let c := am.check_running s1
  if c.2 then
    let r := runLoops am c.1 queue disconnects
    ⟨Event.startedHook :: r.live, r.mainOps, r.drainOps, r.outcome⟩
  else
    ⟨[Event.startedHook], [], [], RunOutcome.terminated⟩

/-- The full event trace of a driven run of `manage`: the manager value is
consumed, so a terminating run drops it on return, firing the `stopped` hook;
a parked run is still alive and has emitted no `stopped` event yet. -/
def manageEvents (am : ActorModel σ M) (s : σ) (queue : List (ManagerMessage M))
    (disconnects : Bool) : List (Event M) :=
  let r := manage am s queue disconnects
  match r.outcome with
  | RunOutcome.terminated => r.live ++ dropEvents M
  | RunOutcome.parked => r.live

/-- The event trace when the task driving `manage` is cancelled: the future
is dropped after emitting the first `k` live events, destroying the captured
manager value, whose `Drop` impl fires the `stopped` hook as the task unwinds. -/
def manageCancelAt (am : ActorModel σ M) (s : σ) (queue : List (ManagerMessage M))
    (disconnects : Bool) (k : Nat) : List (Event M) :=
  ((manage am s queue disconnects).live.take k) ++ dropEvents M

/-- The subsequence of dispatched mailbox entries in an event trace, in order. -/
def dispatchedOf : List (Event M) → List (ManagerMessage M)
  | [] => []
  | Event.dispatched m :: t => m :: dispatchedOf t
  | Event.startedHook :: t => dispatchedOf t
  | Event.stoppedHook :: t => dispatchedOf t

/-- Number of invocations of the `stopped` hook in an event trace. -/
def countStops : List (Event M) → Nat
  | [] => 0
  | Event.stoppedHook :: t => countStops t + 1
  | Event.startedHook :: t => countStops t
  | Event.dispatched _ :: t => countStops t

/-- Number of invocations of the `started` hook in an event trace. -/
def countStarts : List (Event M) → Nat
  | [] => 0
  | Event.startedHook :: t => countStarts t + 1
  | Event.stoppedHook :: t => countStarts t
  | Event.dispatched _ :: t => countStarts t

/-- Whether handling the queued entries in sequence from state `s` yields
the verdict `Yes` on every entry, so the main loop never stops looping. -/
def verdictsAllYes (am : ActorModel σ M) : σ → List (ManagerMessage M) → Bool
  | _, [] => true
  | s, m :: rest =>
    match am.handle_message s m with
    | (t, ContinueManageLoop.yes) => verdictsAllYes am t rest
    | (_, ContinueManageLoop.exitImmediately) => false
    | (_, ContinueManageLoop.processNotifications) => false

/-! ### Trace bookkeeping lemmas -/

theorem dispatchedOf_append (a b : List (Event M)) :
    dispatchedOf (a ++ b) = dispatchedOf a ++ dispatchedOf b := by
  induction a with
  | nil => rfl
  | cons e t ih => cases e <;> simp [dispatchedOf, ih]

theorem dispatchedOf_map (l : List (ManagerMessage M)) :
    dispatchedOf (l.map Event.dispatched) = l := by
  induction l with
  | nil => rfl
  | cons m t ih => simp [dispatchedOf, ih]

theorem countStops_append (a b : List (Event M)) :
    countStops (a ++ b) = countStops a + countStops b := by
  induction a with
  | nil => simp [countStops]
  | cons e t ih =>
    cases e with
    | startedHook => simp [countStops, ih]
    | dispatched m => simp [countStops, ih]
    | stoppedHook =>
      simp [countStops, ih]
      omega

theorem countStops_map (l : List (ManagerMessage M)) :
    countStops (l.map Event.dispatched) = 0 := by
  induction l with
  | nil => rfl
  | cons m t ih => simp [countStops, ih]

theorem countStops_take (l : List (Event M)) (k : Nat) (h : countStops l = 0) :
    countStops (l.take k) = 0 := by
  induction l generalizing k with
  | nil => simp [countStops]
  | cons e t ih =>
    cases k with
    | zero => rfl
    | succ n =>
      cases e with
      | startedHook => simpa [countStops] using ih n (by simpa [countStops] using h)
      | dispatched m => simpa [countStops] using ih n (by simpa [countStops] using h)
      | stoppedHook => simp [countStops] at h

/-! ### Shape of the main loop and the drain loop -/

theorem mainLoop_shape (am : ActorModel σ M) (s : σ) (q : List (ManagerMessage M)) :
    ∃ k, (mainLoop am s q).1.events = (q.take k).map Event.dispatched ∧
      ∀ rest, (mainLoop am s q).2 = MainExit.brokeToDrain rest → rest = q.drop k := by
  induction q generalizing s with
  | nil =>
    refine ⟨0, by simp [mainLoop], ?_⟩
    intro rest h
    simp [mainLoop] at h
  | cons m rest ih =>
    rcases hm : am.handle_message s m with ⟨t, v⟩
    cases v with
    | yes =>
      obtain ⟨k, he, hr⟩ := ih t
      refine ⟨k + 1, ?_, ?_⟩
      · simp [mainLoop, hm, he]
      · intro r h
        simp only [mainLoop, hm] at h
        simpa using hr r h
    | processNotifications =>
      refine ⟨1, by simp [mainLoop, hm], ?_⟩
      intro r h
      simp only [mainLoop, hm] at h
      simpa using h.symm
    | exitImmediately =>
      refine ⟨1, by simp [mainLoop, hm], ?_⟩
      intro r h
      simp [mainLoop, hm] at h

theorem drainLoop_shape (am : ActorModel σ M) (s : σ) (q : List (ManagerMessage M)) :
    ∃ j, (drainLoop am s q).events = (q.take j).map Event.dispatched := by
  induction q generalizing s with
  | nil => exact ⟨0, by simp [drainLoop]⟩
  | cons m rest ih =>
    rcases hm : am.handle_message s m with ⟨t, v⟩
    cases v with
    | yes =>
      obtain ⟨j, hj⟩ := ih t
      exact ⟨j + 1, by simp [drainLoop, hm, hj]⟩
    | processNotifications =>
      obtain ⟨j, hj⟩ := ih t
      exact ⟨j + 1, by simp [drainLoop, hm, hj]⟩
    | exitImmediately => exact ⟨1, by simp [drainLoop, hm]⟩

theorem mainLoop_allYes (am : ActorModel σ M) (s : σ) (q : List (ManagerMessage M))
    (h : verdictsAllYes am s q = true) :
    (mainLoop am s q).1.events = q.map Event.dispatched ∧
      (mainLoop am s q).2 = MainExit.exhausted := by
  induction q generalizing s with
  | nil => simp [mainLoop]
  | cons m rest ih =>
    rcases hm : am.handle_message s m with ⟨t, v⟩
    cases v with
    | yes =>
      obtain ⟨h1, h2⟩ := ih t (by simpa [verdictsAllYes, hm] using h)
      constructor
      · simp [mainLoop, hm, h1]
      · simp [mainLoop, hm, h2]
    | processNotifications => simp [verdictsAllYes, hm] at h
    | exitImmediately => simp [verdictsAllYes, hm] at h

theorem countStops_mainLoop (am : ActorModel σ M) (s : σ) (q : List (ManagerMessage M)) :
    countStops (mainLoop am s q).1.events = 0 := by
  obtain ⟨k, he, _⟩ := mainLoop_shape am s q
  rw [he, countStops_map]

theorem countStops_drainLoop (am : ActorModel σ M) (s : σ) (q : List (ManagerMessage M)) :
    countStops (drainLoop am s q).events = 0 := by
  obtain ⟨j, hj⟩ := drainLoop_shape am s q
  rw [hj, countStops_map]

theorem countStops_runLoops (am : ActorModel σ M) (s : σ) (q : List (ManagerMessage M))
    (d : Bool) : countStops (runLoops am s q d).live = 0 := by
  rcases hex : (mainLoop am s q).2 with _ | rest | _ <;>
    simp [runLoops, hex, countStops_append, countStops_mainLoop, countStops_drainLoop]
  cases d <;>
    simp [countStops_append, countStops_mainLoop, countStops_drainLoop]

theorem countStops_manage_live (am : ActorModel σ M) (s : σ) (q : List (ManagerMessage M))
    (d : Bool) : countStops (manage am s q d).live = 0 := by
  rcases hc : am.check_running (am.started s) with ⟨s1, b⟩
  cases b <;> simp [manage, hc, countStops, countStops_runLoops]

/-! ### Model of `ActorManager::start` and the liveness counter -/

/-- Reference counts of one `Arc` allocation, by the standard semantics of
`std::sync::Arc`: `Arc::new` yields one strong reference, `Arc::clone` adds a
strong reference, `Arc::downgrade` adds a weak reference. -/
structure ArcCounter where
  strong : Nat
  weak : Nat
deriving DecidableEq

/-- `Arc::new(())` (line 48 of `manager.rs`): one strong, no weak reference. -/
def arcNewCount : ArcCounter := ⟨1, 0⟩

/-- Effect of `Arc::clone` on the counts: one more strong reference. -/
def arcCloneCount (c : ArcCounter) : ArcCounter := ⟨c.strong + 1, c.weak⟩

/-- Effect of `Arc::downgrade` on the counts: one more weak reference,
the strong count unchanged. -/
def arcDowngradeCount (c : ArcCounter) : ArcCounter := ⟨c.strong, c.weak + 1⟩

/-- What `ActorManager::start` (lines 46-63 of `manager.rs`) produces, as
seen through the liveness counter and the lifecycle events: the final counts
on the counter, how many strong references each holder owns, whether the
internal `WeakAddress` holds a cloned sender, and the events emitted. -/
structure StartModel (M : Type) where
  counterStrong : Nat
  counterWeak : Nat
  addressStrong : Nat
  contextStrong : Nat
  weakAddressStrong : Nat
  weakAddressHoldsSender : Bool
  events : List (Event M)
deriving DecidableEq

/-- `ActorManager::start`, traced line by line: `Arc::new(())` (line 48),
`Arc::downgrade` into the `WeakAddress` (line 51), `ref_counter.clone()`
passed to `Context::new` (line 53), the original `ref_counter` moved into the
returned `Address` (lines 57-60).  No lifecycle hook is invoked and no entry
is processed. -/
def startModel (M : Type) : StartModel M :=
  let c0 := arcNewCount
  let c1 := arcDowngradeCount c0
  let c2 := arcCloneCount c1
  { counterStrong := c2.strong
    counterWeak := c2.weak
    addressStrong := 1
    contextStrong := 1
    weakAddressStrong := 0
    weakAddressHoldsSender := true
    events := [] }

/-- The event trace of a manager that is produced by `start` and dropped
without its `manage` future ever being executed: `start` emits nothing, and
the `Drop` impl fires the `stopped` hook. -/
def droppedWithoutRun (M : Type) : List (Event M) :=
  (startModel M).events ++ dropEvents M

/-! ### Concrete models used to instantiate the parametric theorems -/

/-- A context model whose handler always answers `Yes`. -/
def yesModel : ActorModel Bool Unit where
  started := fun s => s
  check_running := fun s => (s, true)
  handle_message := fun s _ => (s, ContinueManageLoop.yes)

/-- A context model whose handler always answers `ProcessNotifications`. -/
def drainModel : ActorModel Bool Unit where
  started := fun s => s
  check_running := fun s => (s, true)
  handle_message := fun s _ => (s, ContinueManageLoop.processNotifications)

/-- A context model whose handler always answers `ExitImmediately`. -/
def exitModel : ActorModel Bool Unit where
  started := fun s => s
  check_running := fun s => (s, true)
  handle_message := fun s _ => (s, ContinueManageLoop.exitImmediately)

/-- A context model whose running flag is cleared during the `started` hook. -/
def stopAtStartModel : ActorModel Bool Unit where
  started := fun _ => false
  check_running := fun s => (s, s)
  handle_message := fun s _ => (s, ContinueManageLoop.yes)

/-- A plain message entry used in concrete instantiations. -/
def m0 : ManagerMessage Unit := ManagerMessage.message ()

/-- A late-notification entry used in concrete instantiations. -/
def n0 : ManagerMessage Unit := ManagerMessage.lateNotification ()

/-! ### Dispatch-order lemmas -/

theorem dispatchedOf_take_map (l : List (ManagerMessage M)) (k : Nat) :
    dispatchedOf ((l.map Event.dispatched).take k) = l.take k := by
  rw [← List.map_take, dispatchedOf_map]

theorem dispatchedOf_runLoops (am : ActorModel σ M) (s : σ) (q : List (ManagerMessage M))
    (d : Bool) : ∃ k, dispatchedOf (runLoops am s q d).live = q.take k := by
  obtain ⟨k, he, hr⟩ := mainLoop_shape am s q
  rcases hex : (mainLoop am s q).2 with _ | rest | _
  · exact ⟨k, by simp [runLoops, hex, he, dispatchedOf_map, dispatchedOf_take_map]⟩
  · obtain ⟨j, hj⟩ := drainLoop_shape am (mainLoop am s q).1.state rest
    have hrest := hr rest hex
    subst hrest
    refine ⟨k + j, ?_⟩
    have : dispatchedOf (runLoops am s q d).live = q.take k ++ (q.drop k).take j := by
      simp [runLoops, hex, dispatchedOf_append, he, hj, dispatchedOf_map,
        dispatchedOf_take_map]
      rw [← List.map_drop, ← List.map_take, dispatchedOf_map]
    rw [this, ← List.take_add]
  · cases d
    · exact ⟨k, by simp [runLoops, hex, he, dispatchedOf_map, dispatchedOf_take_map]⟩
    · exact ⟨k, by simp [runLoops, hex, he, dispatchedOf_map, dispatchedOf_take_map,
        drainLoop, dispatchedOf, dispatchedOf_append]⟩

theorem dispatchedOf_manageEvents (am : ActorModel σ M) (s : σ)
    (q : List (ManagerMessage M)) (d : Bool) :
    dispatchedOf (manageEvents am s q d) = dispatchedOf (manage am s q d).live := by
  rcases ho : (manage am s q d).outcome <;>
    simp [manageEvents, ho, dispatchedOf_append, dropEvents, dispatchedOf]

theorem dispatchedOf_manage_live (am : ActorModel σ M) (s : σ)
    (q : List (ManagerMessage M)) (d : Bool) :
    ∃ k, dispatchedOf (manage am s q d).live = q.take k := by
  rcases hc : am.check_running (am.started s) with ⟨s1, b⟩
  cases b
  · exact ⟨0, by simp [manage, hc, dispatchedOf]⟩
  · obtain ⟨k, hk⟩ := dispatchedOf_runLoops am s1 q d
    exact ⟨k, by simp [manage, hc, dispatchedOf, hk]⟩

theorem dispatchedOf_runLoops_allYes (am : ActorModel σ M) (s : σ)
    (q : List (ManagerMessage M)) (d : Bool) (h : verdictsAllYes am s q = true) :
    dispatchedOf (runLoops am s q d).live = q := by
  obtain ⟨h1, h2⟩ := mainLoop_allYes am s q h
  cases d <;> simp [runLoops, h2, h1, dispatchedOf_map, dispatchedOf_append,
    drainLoop, dispatchedOf]

/-! ### Drain-phase operation lemmas -/

theorem drain_ops_poll (am : ActorModel σ M) (s : σ) (q : List (ManagerMessage M)) :
    ∀ op ∈ (drainLoop am s q).ops, op = MailboxOp.pollNext := by
  induction q generalizing s with
  | nil =>
    intro op hop
    simpa [drainLoop] using hop
  | cons m rest ih =>
    rcases hm : am.handle_message s m with ⟨t, v⟩
    intro op hop
    cases v with
    | yes =>
      simp [drainLoop, hm] at hop
      rcases hop with rfl | hop
      · rfl
      · exact ih t op hop
    | processNotifications =>
      simp [drainLoop, hm] at hop
      rcases hop with rfl | hop
      · rfl
      · exact ih t op hop
    | exitImmediately =>
      simpa [drainLoop, hm] using hop

theorem drain_ops_all_poll (am : ActorModel σ M) (s : σ) (q : List (ManagerMessage M)) :
    ((drainLoop am s q).ops.all fun op => ! MailboxOp.suspending op) = true := by
  rw [List.all_eq_true]
  intro op hop
  rw [drain_ops_poll am s q op hop]
  rfl

theorem drain_ops_length (am : ActorModel σ M) (s : σ) (q : List (ManagerMessage M)) :
    (drainLoop am s q).ops.length ≤ q.length + 1 := by
  induction q generalizing s with
  | nil => simp [drainLoop]
  | cons m rest ih =>
    rcases hm : am.handle_message s m with ⟨t, v⟩
    cases v with
    | yes =>
      have h := ih t
      simp [drainLoop, hm]
      omega
    | processNotifications =>
      have h := ih t
      simp [drainLoop, hm]
      omega
    | exitImmediately =>
      simp [drainLoop, hm]

theorem runLoops_drainOps (am : ActorModel σ M) (s : σ) (q : List (ManagerMessage M))
    (d : Bool) :
    (((runLoops am s q d).drainOps.all fun op => ! MailboxOp.suspending op) = true) ∧
    (runLoops am s q d).drainOps.length ≤ q.length + 1 := by
  obtain ⟨k, he, hr⟩ := mainLoop_shape am s q
  rcases hex : (mainLoop am s q).2 with _ | rest | _
  · simp [runLoops, hex]
  · have hrest := hr rest hex
    have h2 : rest.length ≤ q.length := by
      rw [hrest, List.length_drop]
      omega
    constructor
    · simpa [runLoops, hex] using drain_ops_all_poll am (mainLoop am s q).1.state rest
    · have h1 := drain_ops_length am (mainLoop am s q).1.state rest
      simp [runLoops, hex]
      omega
  · cases d
    · simp [runLoops, hex]
    · constructor
      · simp [runLoops, hex, drainLoop, MailboxOp.suspending]
      · simp [runLoops, hex, drainLoop]

/-! ### The claims -/

/-- C1: on every execution path of the consuming `manage` (early return after
the startup check, an `ExitImmediately` verdict in the main loop, completion
of the drain phase, or cancellation of the driving task at any point), the
`stopped` hook fires exactly once — never zero times and never twice — via
destruction of the manager value. -/
theorem stopped_fires_exactly_once (am : ActorModel σ M) (s : σ)
    (q : List (ManagerMessage M)) (d : Bool) :
    ((manage am s q d).outcome = RunOutcome.terminated →
      countStops (manageEvents am s q d) = 1) ∧
    (∀ k, countStops (manageCancelAt am s q d k) = 1) := by
  constructor
  · intro h
    simp [manageEvents, h, countStops_append, countStops_manage_live, dropEvents, countStops]
  · intro k
    simp [manageCancelAt, countStops_append, dropEvents, countStops,
      countStops_take _ k (countStops_manage_live am s q d)]

theorem stopped_fires_exactly_once_witness :
    countStops (manageEvents yesModel true [m0] true) = 1 ∧
    countStops (manageCancelAt yesModel true [m0] true 1) = 1 :=
  ⟨(stopped_fires_exactly_once yesModel true [m0] true).1 (by decide),
   (stopped_fires_exactly_once yesModel true [m0] true).2 1⟩

/-- C2: the dispatched entries of any run form an initial segment of the
arrival order — each entry dispatched at most once, in mailbox order,
entry kind never affecting the order — and while every verdict keeps the
loop running no entry is dropped: all of them are dispatched. -/
theorem entries_processed_in_order (am : ActorModel σ M) (s : σ)
    (q : List (ManagerMessage M)) (d : Bool) :
    (∃ k, dispatchedOf (manageEvents am s q d) = q.take k) ∧
    ((am.check_running (am.started s)).2 = true →
      verdictsAllYes am (am.check_running (am.started s)).1 q = true →
      dispatchedOf (manageEvents am s q d) = q) := by
  constructor
  · obtain ⟨k, hk⟩ := dispatchedOf_manage_live am s q d
    exact ⟨k, by rw [dispatchedOf_manageEvents, hk]⟩
  · intro hc hy
    rw [dispatchedOf_manageEvents]
    rcases hcr : am.check_running (am.started s) with ⟨s1, b⟩
    rw [hcr] at hc hy
    simp only at hc
    subst hc
    simp only at hy
    simp [manage, hcr, dispatchedOf, dispatchedOf_runLoops_allYes am s1 q d hy]

theorem entries_processed_in_order_witness :
    (yesModel.check_running (yesModel.started true)).2 = true ∧
    verdictsAllYes yesModel (yesModel.check_running (yesModel.started true)).1 [m0, n0] = true ∧
    dispatchedOf (manageEvents yesModel true [m0, n0] false) = [m0, n0] :=
  ⟨rfl, rfl, (entries_processed_in_order yesModel true [m0, n0] false).2 rfl rfl⟩

/-- C3: in the main loop the verdict after each handled entry is interpreted
as: `Yes` repeats the loop on the remaining entries; `ProcessNotifications`
breaks into the drain phase over the remaining entries; `ExitImmediately`
returns from the run at once, skipping the drain phase so nothing further is
processed. -/
theorem main_loop_verdict_semantics (am : ActorModel σ M) (s t : σ)
    (m : ManagerMessage M) (rest : List (ManagerMessage M)) (d : Bool) :
    (am.handle_message s m = (t, ContinueManageLoop.yes) →
      (runLoops am s (m :: rest) d).live
          = Event.dispatched m :: (runLoops am t rest d).live ∧
      (runLoops am s (m :: rest) d).mainOps
          = MailboxOp.awaitNext :: (runLoops am t rest d).mainOps ∧
      (runLoops am s (m :: rest) d).drainOps = (runLoops am t rest d).drainOps ∧
      (runLoops am s (m :: rest) d).outcome = (runLoops am t rest d).outcome) ∧
    (am.handle_message s m = (t, ContinueManageLoop.processNotifications) →
      runLoops am s (m :: rest) d =
        ⟨Event.dispatched m :: (drainLoop am t rest).events, [MailboxOp.awaitNext],
          (drainLoop am t rest).ops, RunOutcome.terminated⟩) ∧
    (am.handle_message s m = (t, ContinueManageLoop.exitImmediately) →
      runLoops am s (m :: rest) d =
        ⟨[Event.dispatched m], [MailboxOp.awaitNext], [], RunOutcome.terminated⟩) := by
  refine ⟨?_, ?_, ?_⟩
  · intro h
    rcases hex : (mainLoop am t rest).2 with _ | r2 | _
    · simp [runLoops, mainLoop, h, hex]
    · simp [runLoops, mainLoop, h, hex]
    · cases d <;> simp [runLoops, mainLoop, h, hex]
  · intro h
    simp [runLoops, mainLoop, h]
  · intro h
    simp [runLoops, mainLoop, h]

theorem main_loop_verdict_semantics_witness :
    (runLoops yesModel true [m0] false).live
        = Event.dispatched m0 :: (runLoops yesModel true [] false).live ∧
    runLoops drainModel true [m0] false =
      ⟨Event.dispatched m0 :: (drainLoop drainModel true []).events, [MailboxOp.awaitNext],
        (drainLoop drainModel true []).ops, RunOutcome.terminated⟩ ∧
    runLoops exitModel true [m0] false =
      ⟨[Event.dispatched m0], [MailboxOp.awaitNext], [], RunOutcome.terminated⟩ :=
  ⟨((main_loop_verdict_semantics yesModel true true m0 [] false).1 rfl).1,
   (main_loop_verdict_semantics drainModel true true m0 [] false).2.1 rfl,
   (main_loop_verdict_semantics exitModel true true m0 [] false).2.2 rfl⟩

/-- C4: if the running flag is found cleared right after the `started` hook,
`manage` terminates without entering the main loop or the drain loop: no
mailbox operation is performed and zero entries are dispatched, regardless of
what was already enqueued; only the two hooks appear in the trace. -/
theorem stop_during_started_dispatches_nothing (am : ActorModel σ M) (s : σ)
    (q : List (ManagerMessage M)) (d : Bool)
    (h : (am.check_running (am.started s)).2 = false) :
    manageEvents am s q d = [Event.startedHook, Event.stoppedHook] ∧
    dispatchedOf (manageEvents am s q d) = [] ∧
    (manage am s q d).mainOps = [] ∧ (manage am s q d).drainOps = [] := by
  refine ⟨?_, ?_, ?_, ?_⟩ <;>
    simp [manageEvents, manage, h, dropEvents, dispatchedOf]

theorem stop_during_started_dispatches_nothing_witness :
    manageEvents stopAtStartModel true [m0, n0] false
        = [Event.startedHook, Event.stoppedHook] ∧
    dispatchedOf (manageEvents stopAtStartModel true [m0, n0] false) = [] ∧
    (manage stopAtStartModel true [m0, n0] false).mainOps = [] ∧
    (manage stopAtStartModel true [m0, n0] false).drainOps = [] :=
  stop_during_started_dispatches_nothing stopAtStartModel true [m0, n0] false rfl

/-- C5: if the mailbox disconnects while the main loop is suspended on the
awaiting receive (the queue is exhausted and every producer is gone), the
manager behaves exactly as an `EnterDrainPhase` over an empty remainder: it
falls into the drain loop, which performs one non-suspending poll, finds
nothing, and the run terminates with no further dispatch. -/
theorem disconnect_is_empty_drain (am : ActorModel σ M) (s : σ)
    (q : List (ManagerMessage M)) (h : (mainLoop am s q).2 = MainExit.exhausted) :
    runLoops am s q true =
      ⟨(mainLoop am s q).1.events ++ (drainLoop am (mainLoop am s q).1.state []).events,
        (mainLoop am s q).1.ops, (drainLoop am (mainLoop am s q).1.state []).ops,
        RunOutcome.terminated⟩ ∧
    (∀ u : σ, drainLoop am u ([] : List (ManagerMessage M)) = ⟨u, [], [MailboxOp.pollNext]⟩) ∧
    (runLoops am s q true).live = (mainLoop am s q).1.events ∧
    (runLoops am s q true).drainOps = [MailboxOp.pollNext] ∧
    (runLoops am s q true).outcome = RunOutcome.terminated := by
  refine ⟨?_, fun u => rfl, ?_, ?_, ?_⟩ <;> simp [runLoops, h, drainLoop]

theorem disconnect_is_empty_drain_witness :
    (runLoops yesModel true [m0] true).live = (mainLoop yesModel true [m0]).1.events ∧
    (runLoops yesModel true [m0] true).drainOps = [MailboxOp.pollNext] ∧
    (runLoops yesModel true [m0] true).outcome = RunOutcome.terminated :=
  ⟨(disconnect_is_empty_drain yesModel true [m0] rfl).2.2.1,
   (disconnect_is_empty_drain yesModel true [m0] rfl).2.2.2.1,
   (disconnect_is_empty_drain yesModel true [m0] rfl).2.2.2.2⟩

/-- C6: during the drain phase an `ExitImmediately` verdict stops the drain
loop at once and every remaining queued entry is discarded undelivered: the
only dispatch the drain performs from that point is the entry just handled. -/
theorem drain_exit_discards_rest (am : ActorModel σ M) (s t : σ) (m : ManagerMessage M)
    (rest : List (ManagerMessage M))
    (h : am.handle_message s m = (t, ContinueManageLoop.exitImmediately)) :
    drainLoop am s (m :: rest) = ⟨t, [Event.dispatched m], [MailboxOp.pollNext]⟩ ∧
    dispatchedOf (drainLoop am s (m :: rest)).events = [m] := by
  constructor <;> simp [drainLoop, h, dispatchedOf]

theorem drain_exit_discards_rest_witness :
    drainLoop exitModel true [m0, n0] = ⟨true, [Event.dispatched m0], [MailboxOp.pollNext]⟩ ∧
    dispatchedOf (drainLoop exitModel true [m0, n0]).events = [m0] :=
  drain_exit_discards_rest exitModel true true m0 [n0] rfl

/-- C7: the drain phase never suspends: every mailbox operation it performs
is the non-suspending poll (`try_next`), and the number of polls is bounded
by the queue length plus one, guaranteeing forward progress to termination. -/
theorem drain_never_suspends (am : ActorModel σ M) (s : σ) (q : List (ManagerMessage M))
    (d : Bool) :
    (((manage am s q d).drainOps.all fun op => ! MailboxOp.suspending op) = true) ∧
    (manage am s q d).drainOps.length ≤ q.length + 1 := by
  rcases hc : am.check_running (am.started s) with ⟨s1, b⟩
  cases b
  · simp [manage, hc]
  · have h := runLoops_drainOps am s1 q d
    simpa [manage, hc] using h

/-- C8: a manager produced by `start` and dropped without its `manage` future
ever being executed still fires the `stopped` hook exactly once, while the
`started` hook is never invoked at all. -/
theorem drop_without_run_stops_once (M : Type) :
    countStops (droppedWithoutRun M) = 1 ∧ countStarts (droppedWithoutRun M) = 0 ∧
    droppedWithoutRun M = [Event.stoppedHook] :=
  ⟨rfl, rfl, rfl⟩

/-- C9: in the drain loop only an `ExitImmediately` verdict ends draining
early; a `ProcessNotifications` verdict while already draining is treated
identically to `Yes`: the loop records the dispatch and keeps polling the
remaining entries, with the same continuation either way. -/
theorem drain_continue_verdicts (am : ActorModel σ M) (s t : σ) (m : ManagerMessage M)
    (rest : List (ManagerMessage M)) (v : ContinueManageLoop)
    (h : am.handle_message s m = (t, v))
    (hv : v = ContinueManageLoop.yes ∨ v = ContinueManageLoop.processNotifications) :
    drainLoop am s (m :: rest) =
      ⟨(drainLoop am t rest).state, Event.dispatched m :: (drainLoop am t rest).events,
        MailboxOp.pollNext :: (drainLoop am t rest).ops⟩ := by
  rcases hv with rfl | rfl <;> simp [drainLoop, h]

theorem drain_continue_verdicts_witness :
    drainLoop yesModel true [m0, n0] =
      ⟨(drainLoop yesModel true [n0]).state,
        Event.dispatched m0 :: (drainLoop yesModel true [n0]).events,
        MailboxOp.pollNext :: (drainLoop yesModel true [n0]).ops⟩ ∧
    drainLoop drainModel true [m0, n0] =
      ⟨(drainLoop drainModel true [n0]).state,
        Event.dispatched m0 :: (drainLoop drainModel true [n0]).events,
        MailboxOp.pollNext :: (drainLoop drainModel true [n0]).ops⟩ :=
  ⟨drain_continue_verdicts yesModel true true m0 [n0] ContinueManageLoop.yes rfl (Or.inl rfl),
   drain_continue_verdicts drainModel true true m0 [n0]
     ContinueManageLoop.processNotifications rfl (Or.inr rfl)⟩

/-- C10: after `start` exactly two strong references to the liveness counter
exist — one in the returned `Address`, one in the `Context` — while the
internal `WeakAddress` holds zero strong references (only the downgraded weak
one) and a cloned sender; hence the strong count is positive while the
manager (context) is alive, the self-address never extends the actor's
lifetime, and no event is emitted before the run future is driven. -/
theorem start_reference_counts (M : Type) :
    (startModel M).counterStrong = 2 ∧
    (startModel M).counterStrong
        = (startModel M).addressStrong + (startModel M).contextStrong ∧
    (startModel M).weakAddressStrong = 0 ∧
    (startModel M).weakAddressHoldsSender = true ∧
    (startModel M).counterWeak = 1 ∧
    0 < (startModel M).contextStrong ∧
    (startModel M).events = [] ∧
    dispatchedOf (startModel M).events = [] :=
  ⟨rfl, rfl, rfl, rfl, rfl, Nat.zero_lt_one, rfl, rfl⟩

end Xtra
